import Mathlib

/-!
Verification of the IllumiCell experiment-execution engine
(`IllumiCell_Python_Code.py`) against its specification.

The engine is shallowly embedded: the step queue, the command encoder
(`process_step`'s f-strings), the timer-driven scheduler (`root.after`
callbacks, `scheduled_tasks`, `after_cancel`), the stop path
(`stop_experiment`), persistence (`save_experiment`/`open_experiment`
via JSON), queue mutation (`delete_step`/`reset_experiment`) and the
telemetry loop (`update_graph`).  GUI-only effects (widget placement,
colors beyond the step markers, dialogs) are modelled only as far as
they are observable events named by the specification.  The Tk event
loop is modelled as a list of armed timers fired earliest-first, ties
broken by arming order, which is Tcl's documented behavior for timer
events and is what the `root.after` callback chain relies on.
-/

/-- A queue entry.  `add_step_to_queue` only ever builds the four list
shapes `[type, duration]`, `[type, duration, lux]`,
`[type, duration, rate, lux]` and `[type, duration, on, off, lux]`,
which this tagged union represents.  All numeric fields are the
non-negative integers coming from the Tk integer variables. -/
inductive Step
  | continuous (dur lux : Nat)
  | noLight (dur : Nat)
  | pulsing (dur freq lux : Nat)
  | advPulsing (dur onTime offTime lux : Nat)
deriving DecidableEq, Repr

/-- The step's duration in seconds (`step[1]` in the source). -/
def Step.dur : Step → Nat
  | .continuous d _ => d
  | .noLight d => d
  | .pulsing d _ _ => d
  | .advPulsing d _ _ _ => d

/-- The command frame `process_step` sends for one step: the f-strings
`ON {duration} {lux}\n`, `OFF {duration}\n`,
`PULSING {duration} {frequency} {lux}\n`,
`ADV_PULSING {duration} {on_time} {off_time} {lux}\n`. -/
def encodeStep : Step → String
  | .continuous d l => s!"ON {d} {l}\n"
  | .noLight d => s!"OFF {d}\n"
  | .pulsing d f l => s!"PULSING {d} {f} {l}\n"
  | .advPulsing d a b l => s!"ADV_PULSING {d} {a} {b} {l}\n"

/-- Outcome of one attempted `arduino.write`. -/
inductive WriteRes
  | ok
  | err
deriving DecidableEq, Repr

/-- The serial transport: whether `arduino.isOpen()` holds and the
outcome of the n-th write attempt. -/
structure Device where
  devOpen : Bool
  outcome : Nat → WriteRes

/-- A device that is connected and whose writes all succeed. -/
def okDevice : Device := ⟨true, fun _ => WriteRes.ok⟩

/-- A device whose port is not open (`arduino.isOpen()` is false). -/
def closedDevice : Device := ⟨false, fun _ => WriteRes.ok⟩

/-- A device that is open but every write raises. -/
def allFailDevice : Device := ⟨true, fun _ => WriteRes.err⟩

/-- Observable engine events: `highlight_step idx color` (yellow = step
in progress, green = step completed), the completion dialog, and
`reset_step_colors`. -/
inductive Ev
  | highlight (idx : Nat) (color : String)
  | finishedDialog
  | resetColors
deriving DecidableEq, Repr

/-- A callback armed with `root.after`: `highlight_step idx color` or
`process_step idx`. -/
inductive Cb
  | highlightCb (idx : Nat) (color : String)
  | stepCb (idx : Nat)
deriving DecidableEq, Repr

/-- One armed Tk timer: its `after` id, absolute fire time in
milliseconds, and callback. -/
structure Timer where
  id : Nat
  time : Nat
  cb : Cb
deriving DecidableEq, Repr

/-- The engine state: the module-level globals `queue`,
`experiment_running`, `scheduled_tasks`, `start_time`, the armed Tk
timers, the log of successful transmissions, the observable event
trace, a fresh-id counter for `after` handles, the current clock and
the write-attempt counter for the device model. -/
structure Sched where
  queue : List Step
  running : Bool
  scheduledTasks : List Nat
  startTime : Option Nat
  timers : List Timer
  sent : List String
  events : List Ev
  nextId : Nat
  now : Nat
  device : Device
  writeCount : Nat

/-- `send_to_arduino`: if the port is open, attempt the write; a raised
exception is caught and only reported in a dialog; if the port is not
open only an error dialog is shown.  The function always returns
normally and touches nothing but the transmission log and the
write-attempt counter. -/
def sendToArduino (s : Sched) (cmd : String) : Sched :=
  if s.device.devOpen then
    match s.device.outcome s.writeCount with
    | WriteRes.ok => { s with sent := s.sent ++ [cmd], writeCount := s.writeCount + 1 }
    | WriteRes.err => { s with writeCount := s.writeCount + 1 }
  else s

/-- `process_step idx`: at `idx = len(queue)` send the `OFF\n` sentinel,
show the finished dialog, reset the step colors and clear
`experiment_running`; otherwise highlight the step yellow, transmit its
frame and arm two timers `duration * 1000` ms ahead — first the green
highlight, then the advance to `idx + 1` — recording both ids in
`scheduled_tasks`. -/
def processStep (s : Sched) (idx : Nat) : Sched :=
  match s.queue[idx]? with
  | none =>
      let s1 := sendToArduino s "OFF\n"
      { s1 with
        events := s1.events ++ [Ev.finishedDialog, Ev.resetColors],
        running := false }
  | some step =>
      let s1 := { s with events := s.events ++ [Ev.highlight idx "yellow"] }
      let s2 := sendToArduino s1 (encodeStep step)
      let t := s2.now + step.dur * 1000
      { s2 with
        timers := s2.timers ++
          [⟨s2.nextId, t, Cb.highlightCb idx "green"⟩,
           ⟨s2.nextId + 1, t, Cb.stepCb (idx + 1)⟩],
        scheduledTasks := s2.scheduledTasks ++ [s2.nextId, s2.nextId + 1],
        nextId := s2.nextId + 2 }

/-- `run_experiment`: `scheduled_tasks = []` happens first; an empty
queue then only raises the warning dialog and returns; otherwise
`experiment_running` and `start_time` are set and `process_step 0`
runs synchronously. -/
def runExperiment (s : Sched) : Sched :=
  let s0 := { s with scheduledTasks := ([] : List Nat) }
  if s0.queue.isEmpty then s0
  else
    let s1 := { s0 with running := true, startTime := some s0.now }
    processStep s1 0

/-- `stop_experiment confirm`: a no-op unless `experiment_running`;
once the user confirms, every id recorded in `scheduled_tasks` is
`after_cancel`led, the `OFF\n` sentinel is sent, the step colors are
reset and `experiment_running` is cleared. -/
def stopExperiment (s : Sched) (confirm : Bool) : Sched :=
  if s.running = false then s
  else if confirm then
    let s1 := { s with timers := s.timers.filter (fun t => !(s.scheduledTasks.contains t.id)) }
    let s2 := sendToArduino s1 "OFF\n"
    { s2 with events := s2.events ++ [Ev.resetColors], running := false }
  else s

/-- Pick the earliest armed timer, ties broken by arming order (the
position in the list, since new timers are appended). -/
def selectMin : List Timer → Option (Timer × List Timer)
  | [] => none
  | t :: ts =>
      match selectMin ts with
      | none => some (t, [])
      | some (u, rest) =>
          if t.time ≤ u.time then some (t, ts) else some (u, t :: rest)

/-- Run one armed callback. -/
def runCb (s : Sched) : Cb → Sched
  | Cb.highlightCb idx color => { s with events := s.events ++ [Ev.highlight idx color] }
  | Cb.stepCb idx => processStep s idx

/-- Fire the earliest armed timer, if any. -/
def fireNext (s : Sched) : Option Sched :=
  match selectMin s.timers with
  | none => none
  | some (t, rest) => some (runCb { s with timers := rest, now := t.time } t.cb)

/-- Drive the event loop for at most `fuel` timer firings. -/
def runLoop : Nat → Sched → Sched
  | 0, s => s
  | fuel + 1, s =>
      match fireNext s with
      | none => s
      | some s1 => runLoop fuel s1

/-- A fresh engine at program start: empty logs, no timers, not
running, with the given queue and device. -/
def mkInitial (q : List Step) (dev : Device) : Sched :=
  { queue := q, running := false, scheduledTasks := [], startTime := none,
    timers := [], sent := [], events := [], nextId := 0, now := 0,
    device := dev, writeCount := 0 }

/-- The frames of `cmds` that actually reach the device when attempts
start at write-attempt number `w`. -/
def transmitted (dev : Device) : Nat → List String → List String
  | _, [] => []
  | w, c :: cs =>
      if dev.devOpen then
        match dev.outcome w with
        | WriteRes.ok => c :: transmitted dev (w + 1) cs
        | WriteRes.err => transmitted dev (w + 1) cs
      else transmitted dev w cs

/-- The marker trace of playing steps from index `i` on: yellow then
green for each step, in order. -/
def traceFrom : Nat → List Step → List Ev
  | _, [] => []
  | i, _ :: rest =>
      Ev.highlight i "yellow" :: Ev.highlight i "green" :: traceFrom (i + 1) rest

/-- Reference big-endian decimal digit list of a natural number. -/
def natDigitsSpec (n : Nat) : List Char :=
  if n < 10 then [Nat.digitChar n]
  else natDigitsSpec (n / 10) ++ [Nat.digitChar (n % 10)]
decreasing_by exact Nat.div_lt_self (by omega) (by omega)

/-- Value denoted by a big-endian decimal digit list. -/
def digitsVal (l : List Char) : Nat :=
  l.foldl (fun a c => 10 * a + (c.toNat - 48)) 0

/-- `s` is the base-10 rendering of `n` with no leading zeros: a
nonempty digit string whose head is `'0'` only for the one-digit
numeral of zero, denoting `n` in base 10. -/
def base10NoLeadingZeros (n : Nat) (s : String) : Prop :=
  ∃ l : List Char, s = l.asString ∧ l ≠ []
    ∧ (∀ c ∈ l, c.isDigit = true)
    ∧ (l.head? = some '0' → l = ['0'])
    ∧ digitsVal l = n

/-- Python `line.replace(".", "", 1)` on the character list: drop the
first `'.'` if any. -/
def removeFirstDotList : List Char → List Char
  | [] => []
  | c :: cs => if c = '.' then cs else c :: removeFirstDotList cs

/-- Python `line.replace(".", "", 1)`. -/
def removeFirstDot (s : String) : String := (removeFirstDotList s.data).asString

/-- Python `str.isdigit` on the ASCII lines the device produces:
nonempty and all decimal digits. -/
def pyIsDigit (s : String) : Bool := !s.data.isEmpty && s.data.all Char.isDigit

/-- The acceptance test of `update_graph`:
`sensor_value.replace(".", "", 1).isdigit()`. -/
def acceptsLine (s : String) : Bool := pyIsDigit (removeFirstDot s)

/-- Split a character list at its first `'.'`. -/
def splitDot : List Char → List Char × Option (List Char)
  | [] => ([], none)
  | c :: cs =>
      if c = '.' then ([], some cs)
      else
        let p := splitDot cs
        (c :: p.1, p.2)

/-- Python `float(line)` on the simple decimal strings the filter
accepts, as an exact rational (integer part plus fractional digits over
the matching power of ten). -/
def parseDec (s : String) : Rat :=
  match splitDot s.data with
  | (ip, none) => mkRat (digitsVal ip) 1
  | (ip, some fp) => mkRat (digitsVal ip * 10 ^ fp.length + digitsVal fp) (10 ^ fp.length)

/-- One accepted telemetry sample: the `time_counter` position and the
parsed value. -/
structure Sample where
  seqIdx : Nat
  value : Rat
deriving DecidableEq, Repr

/-- The telemetry loop of `update_graph` over the raw lines read while
running: an accepted line appends a sample carrying the current
`time_counter` (the count of previously accepted samples, starting at
0) and the parsed value, then increments the counter; any other line is
skipped (a `float` failure would be caught and only logged). -/
def ingest (counter : Nat) (samples : List Sample) : List String → List Sample
  | [] => samples
  | line :: rest =>
      if acceptsLine line then
        ingest (counter + 1) (samples ++ [⟨counter, parseDec line⟩]) rest
      else ingest counter samples rest

/-- Modelled from the spec: the acceptance pattern the spec claims,
the regular expression `^\d+(\.\d+)?$` — one or more digits, optionally
followed by a dot and one or more digits. -/
def specAccepts (s : String) : Bool :=
  match splitDot s.data with
  | (ip, none) => !ip.isEmpty && ip.all Char.isDigit
  | (ip, some fp) =>
      !ip.isEmpty && ip.all Char.isDigit && !fp.isEmpty && fp.all Char.isDigit

/-- The JSON record `add_step_to_queue` builds and `json.dump` writes
for one step: `[type, duration]` plus the variant fields in order. -/
inductive Json
  | jstr (s : String)
  | jnum (n : Nat)
  | jarr (xs : List Json)

def stepRecord : Step → Json
  | Step.continuous d l =>
      Json.jarr [Json.jstr "Continuous light", Json.jnum d, Json.jnum l]
  | Step.noLight d =>
      Json.jarr [Json.jstr "No light", Json.jnum d]
  | Step.pulsing d f l =>
      Json.jarr [Json.jstr "Pulsing light", Json.jnum d, Json.jnum f, Json.jnum l]
  | Step.advPulsing d a b l =>
      Json.jarr [Json.jstr "Advanced pulsing light", Json.jnum d, Json.jnum a,
        Json.jnum b, Json.jnum l]

/-- `save_experiment`: warns and writes nothing on an empty queue,
otherwise dumps the queue as a JSON list of step records. -/
def saveExperiment (q : List Step) : Option Json :=
  if q.isEmpty then none else some (Json.jarr (q.map stepRecord))

/-- Reading one loaded record back as the step it denotes (the shapes
`process_step` and the listbox renderer consume positionally). -/
def decodeRecord : Json → Option Step
  | Json.jarr [Json.jstr "Continuous light", Json.jnum d, Json.jnum l] =>
      some (Step.continuous d l)
  | Json.jarr [Json.jstr "No light", Json.jnum d] =>
      some (Step.noLight d)
  | Json.jarr [Json.jstr "Pulsing light", Json.jnum d, Json.jnum f, Json.jnum l] =>
      some (Step.pulsing d f l)
  | Json.jarr [Json.jstr "Advanced pulsing light", Json.jnum d, Json.jnum a,
      Json.jnum b, Json.jnum l] =>
      some (Step.advPulsing d a b l)
  | _ => none

/-- `open_experiment`: `json.load` the file then `queue.extend(...)` —
the loaded records are appended to the existing queue in file order. -/
def decodeAll : List Json → Option (List Step)
  | [] => some []
  | r :: rs =>
      match decodeRecord r, decodeAll rs with
      | some st, some rest => some (st :: rest)
      | _, _ => none

def openExperiment (q0 : List Step) (file : Json) : Option (List Step) :=
  match file with
  | Json.jarr recs =>
      match decodeAll recs with
      | some loaded => some (q0 ++ loaded)
      | none => none
  | _ => none

/-- Result of `delete_step` on the selected listbox row. -/
inductive DeleteRes
  | deleted (q : List Step)
  | cannotDeleteDefault
  | noSelection
  | notConfirmed
  | indexError
deriving DecidableEq, Repr

/-- `delete_step`: acts on the listbox selection; the placeholder row
of an empty queue is refused with a warning; after confirmation
`queue.pop(idx)` runs, which raises `IndexError` when the index is out
of range.  There is no check of the run phase. -/
def deleteStep (q : List Step) (sel : Option Nat) (confirm : Bool) : DeleteRes :=
  match sel with
  | none => DeleteRes.noSelection
  | some idx =>
      if idx = 0 ∧ q = [] then DeleteRes.cannotDeleteDefault
      else if confirm then
        if idx < q.length then DeleteRes.deleted (q.eraseIdx idx)
        else DeleteRes.indexError
      else DeleteRes.notConfirmed

/-- `reset_experiment`: unconditionally empties the queue.  There is no
check of the run phase. -/
def resetExperiment (s : Sched) : Sched := { s with queue := [] }

/-- `on_step_click`: whether the click makes the delete button
available.  While the experiment is running the handler returns
immediately, so the button is never offered. -/
def onStepClick (running : Bool) (sel : Option Nat) (queueIsEmpty : Bool) : Bool :=
  if running then false
  else
    match sel with
    | none => false
    | some idx => !(idx = 0 && queueIsEmpty)

theorem runLoop_succ (fuel : Nat) (s : Sched) :
    runLoop (fuel + 1) s
      = match fireNext s with
        | none => s
        | some s1 => runLoop fuel s1 := rfl

theorem runLoop_succ_some (fuel : Nat) (s s1 : Sched) (h : fireNext s = some s1) :
    runLoop (fuel + 1) s = runLoop fuel s1 := by
  rw [runLoop_succ, h]

/-- `send_to_arduino` returns normally in all cases and modifies
nothing but the transmission log and the write-attempt counter. -/
theorem sendToArduino_spec (s : Sched) (cmd : String) :
    (sendToArduino s cmd).sent = s.sent ++ transmitted s.device s.writeCount [cmd] ∧
    (sendToArduino s cmd).writeCount
        = (if s.device.devOpen then s.writeCount + 1 else s.writeCount) ∧
    (sendToArduino s cmd).running = s.running ∧
    (sendToArduino s cmd).timers = s.timers ∧
    (sendToArduino s cmd).events = s.events ∧
    (sendToArduino s cmd).queue = s.queue ∧
    (sendToArduino s cmd).scheduledTasks = s.scheduledTasks ∧
    (sendToArduino s cmd).device = s.device ∧
    (sendToArduino s cmd).nextId = s.nextId ∧
    (sendToArduino s cmd).now = s.now ∧
    (sendToArduino s cmd).startTime = s.startTime := by
  by_cases h : s.device.devOpen
  · cases ho : s.device.outcome s.writeCount <;>
      simp [sendToArduino, transmitted, h, ho]
  · simp [sendToArduino, transmitted, h]

theorem transmitted_append (dev : Device) (w : Nat) (xs ys : List String) :
    transmitted dev w (xs ++ ys)
      = transmitted dev w xs
          ++ transmitted dev (if dev.devOpen then w + xs.length else w) ys := by
  induction xs generalizing w with
  | nil => simp [transmitted]
  | cons x xs ih =>
      by_cases h : dev.devOpen
      · cases ho : dev.outcome w <;>
          simp [transmitted, h, ho, ih, Nat.add_assoc, Nat.add_comm 1 xs.length]
      · simp [transmitted, h, ih]

theorem transmitted_cons (dev : Device) (w : Nat) (c : String) (cs : List String) :
    transmitted dev w (c :: cs)
      = transmitted dev w [c]
          ++ transmitted dev (if dev.devOpen then w + 1 else w) cs := by
  simpa using transmitted_append dev w [c] cs

/-- On a healthy device every frame reaches the device. -/
theorem transmitted_okDevice (w : Nat) (cs : List String) :
    transmitted okDevice w cs = cs := by
  induction cs generalizing w with
  | nil => rfl
  | cons c cs ih =>
      have h1 : okDevice.devOpen = true := rfl
      have h2 : okDevice.outcome w = WriteRes.ok := rfl
      simp [transmitted, h1, h2, ih]

/-- On a closed port nothing reaches the device. -/
theorem transmitted_closedDevice (w : Nat) (cs : List String) :
    transmitted closedDevice w cs = [] := by
  induction cs generalizing w with
  | nil => rfl
  | cons c cs ih =>
      have h1 : closedDevice.devOpen = false := rfl
      simp [transmitted, h1, ih]

/-- When every write raises, nothing reaches the device. -/
theorem transmitted_allFailDevice (w : Nat) (cs : List String) :
    transmitted allFailDevice w cs = [] := by
  induction cs generalizing w with
  | nil => rfl
  | cons c cs ih =>
      have h1 : allFailDevice.devOpen = true := rfl
      have h2 : allFailDevice.outcome w = WriteRes.err := rfl
      simp [transmitted, h1, h2, ih]

/-- With no armed timers the event loop does nothing. -/
theorem runLoop_no_timers (fuel : Nat) (s : Sched) (h : s.timers = []) :
    runLoop fuel s = s := by
  cases fuel with
  | zero => rfl
  | succ fuel => simp [runLoop, fireNext, h, selectMin]

/-- Firing from a pair of timers armed for the same instant runs the
first-armed callback and leaves the second armed. -/
theorem fireNext_pair (s : Sched) (a b t : Nat) (cb1 cb2 : Cb)
    (h : s.timers = [⟨a, t, cb1⟩, ⟨b, t, cb2⟩]) :
    fireNext s = some (runCb { s with timers := [⟨b, t, cb2⟩], now := t } cb1) := by
  simp [fireNext, h, selectMin]

/-- Firing from a single armed timer runs its callback. -/
theorem fireNext_single (s : Sched) (b t : Nat) (cb : Cb)
    (h : s.timers = [⟨b, t, cb⟩]) :
    fireNext s = some (runCb { s with timers := [], now := t } cb) := by
  simp [fireNext, h, selectMin]

theorem sendToArduino_sent (s : Sched) (cmd : String) :
    (sendToArduino s cmd).sent = s.sent ++ transmitted s.device s.writeCount [cmd] :=
  (sendToArduino_spec s cmd).1

theorem sendToArduino_writeCount (s : Sched) (cmd : String) :
    (sendToArduino s cmd).writeCount
      = (if s.device.devOpen then s.writeCount + 1 else s.writeCount) :=
  (sendToArduino_spec s cmd).2.1

theorem sendToArduino_running (s : Sched) (cmd : String) :
    (sendToArduino s cmd).running = s.running :=
  (sendToArduino_spec s cmd).2.2.1

theorem sendToArduino_timers (s : Sched) (cmd : String) :
    (sendToArduino s cmd).timers = s.timers :=
  (sendToArduino_spec s cmd).2.2.2.1

theorem sendToArduino_events (s : Sched) (cmd : String) :
    (sendToArduino s cmd).events = s.events :=
  (sendToArduino_spec s cmd).2.2.2.2.1

theorem sendToArduino_queue (s : Sched) (cmd : String) :
    (sendToArduino s cmd).queue = s.queue :=
  (sendToArduino_spec s cmd).2.2.2.2.2.1

theorem sendToArduino_scheduledTasks (s : Sched) (cmd : String) :
    (sendToArduino s cmd).scheduledTasks = s.scheduledTasks :=
  (sendToArduino_spec s cmd).2.2.2.2.2.2.1

theorem sendToArduino_device (s : Sched) (cmd : String) :
    (sendToArduino s cmd).device = s.device :=
  (sendToArduino_spec s cmd).2.2.2.2.2.2.2.1

theorem sendToArduino_nextId (s : Sched) (cmd : String) :
    (sendToArduino s cmd).nextId = s.nextId :=
  (sendToArduino_spec s cmd).2.2.2.2.2.2.2.2.1

theorem sendToArduino_now (s : Sched) (cmd : String) :
    (sendToArduino s cmd).now = s.now :=
  (sendToArduino_spec s cmd).2.2.2.2.2.2.2.2.2.1

theorem sendToArduino_startTime (s : Sched) (cmd : String) :
    (sendToArduino s cmd).startTime = s.startTime :=
  (sendToArduino_spec s cmd).2.2.2.2.2.2.2.2.2.2

/-- Two timers armed for the same instant fire in arming order: first
the green completed-marker, then the advance into `process_step`. -/
theorem runLoop_two_fires (s : Sched) (a b t i f : Nat)
    (h : s.timers = [⟨a, t, Cb.highlightCb i "green"⟩, ⟨b, t, Cb.stepCb (i + 1)⟩]) :
    runLoop (f + 2) s
      = runLoop f (processStep
          { s with timers := [], now := t,
                   events := s.events ++ [Ev.highlight i "green"] } (i + 1)) := by
  have h1 := fireNext_pair s a b t (Cb.highlightCb i "green") (Cb.stepCb (i + 1)) h
  have h2 : fireNext
        (runCb { s with timers := [⟨b, t, Cb.stepCb (i + 1)⟩], now := t }
          (Cb.highlightCb i "green"))
      = some (processStep
          { s with timers := [], now := t,
                   events := s.events ++ [Ev.highlight i "green"] } (i + 1)) :=
    fireNext_single _ b t (Cb.stepCb (i + 1)) rfl
  rw [show f + 2 = f + 1 + 1 from rfl,
      runLoop_succ_some _ _ _ h1, runLoop_succ_some _ _ _ h2]

/-- Core playback lemma: from a state whose armed timers are exactly
the completed-marker and advance timers of step `i`, with the rest of
the queue being `rest`, the event loop plays out the remaining steps
in order, transmits their frames then the `OFF\n` sentinel (subject to
the device), emits the marker trace, and ends not running with no
armed timers. -/
theorem runLoop_core (rest : List Step) :
    ∀ (i : Nat) (s : Sched) (a b t fuel : Nat),
      s.queue.drop (i + 1) = rest →
      s.timers = [⟨a, t, Cb.highlightCb i "green"⟩, ⟨b, t, Cb.stepCb (i + 1)⟩] →
      2 * rest.length + 2 ≤ fuel →
      (runLoop fuel s).sent
          = s.sent ++ transmitted s.device s.writeCount (rest.map encodeStep ++ ["OFF\n"]) ∧
      (runLoop fuel s).events
          = s.events ++ [Ev.highlight i "green"] ++ traceFrom (i + 1) rest
              ++ [Ev.finishedDialog, Ev.resetColors] ∧
      (runLoop fuel s).running = false ∧
      (runLoop fuel s).timers = [] ∧
      (runLoop fuel s).queue = s.queue := by
  induction rest with
  | nil =>
      intro i s a b t fuel hdrop htimers hfuel
      obtain ⟨f, rfl⟩ : ∃ f, fuel = f + 2 := ⟨fuel - 2, by omega⟩
      have hget : s.queue[i + 1]? = none := by
        have hlen : s.queue.length ≤ i + 1 := by
          have hl := congrArg List.length hdrop
          simp only [List.length_drop, List.length_nil] at hl
          omega
        exact List.getElem?_eq_none hlen
      rw [runLoop_two_fires s a b t i f htimers]
      rw [runLoop_no_timers f _ (by simp [processStep, hget, sendToArduino_timers])]
      refine ⟨?_, ?_, ?_, ?_, ?_⟩ <;>
        simp [processStep, hget, sendToArduino_sent, sendToArduino_events,
          sendToArduino_queue, sendToArduino_timers, sendToArduino_device,
          transmitted, traceFrom]
  | cons st rest ih =>
      intro i s a b t fuel hdrop htimers hfuel
      obtain ⟨f, rfl⟩ : ∃ f, fuel = f + 2 := ⟨fuel - 2, by omega⟩
      have hget : s.queue[i + 1]? = some st := by
        have h0 := congrArg (fun l => l[0]?) hdrop
        simpa [List.getElem?_drop] using h0
      have hdrop2 : s.queue.drop (i + 1 + 1) = rest := by
        have h0 := congrArg (List.drop 1) hdrop
        simpa [List.drop_drop, Nat.add_comm] using h0
      rw [runLoop_two_fires s a b t i f htimers]
      have hfmid : 2 * rest.length + 2 ≤ f := by
        simp only [List.length_cons] at hfuel
        omega
      obtain ⟨ihsent, ihev, ihrun, ihtim, ihq⟩ :=
        ih (i + 1)
          (processStep
            { s with timers := [], now := t,
                     events := s.events ++ [Ev.highlight i "green"] } (i + 1))
          s.nextId (s.nextId + 1) (t + st.dur * 1000) f
          (by simp [processStep, hget, sendToArduino_queue]; exact hdrop2)
          (by simp [processStep, hget, sendToArduino_timers, sendToArduino_nextId,
                sendToArduino_now])
          hfmid
      refine ⟨?_, ?_, ?_, ?_, ?_⟩
      · rw [ihsent]
        simp only [processStep, hget, sendToArduino_sent, sendToArduino_writeCount,
          sendToArduino_device, List.map_cons]
        by_cases hopen : s.device.devOpen
        · cases houtcome : s.device.outcome s.writeCount <;>
            simp [transmitted, hopen, houtcome, List.append_assoc]
        · simp [transmitted, hopen, List.append_assoc]
      · rw [ihev]
        simp [processStep, hget, sendToArduino_events, traceFrom, List.append_assoc]
      · exact ihrun
      · exact ihtim
      · rw [ihq]
        simp [processStep, hget, sendToArduino_queue]

/-- Running a nonempty queue from a fresh engine to quiescence:
transmissions are the step frames in queue order then the sentinel
(as filtered by the device), the events are the full marker trace then
the completion dialog and color reset, and the engine ends not running
with no armed timers. -/
theorem run_to_completion (q : List Step) (dev : Device) (hq : q ≠ []) (fuel : Nat)
    (hfuel : 2 * q.length ≤ fuel) :
    (runLoop fuel (runExperiment (mkInitial q dev))).sent
        = transmitted dev 0 (q.map encodeStep ++ ["OFF\n"]) ∧
    (runLoop fuel (runExperiment (mkInitial q dev))).events
        = traceFrom 0 q ++ [Ev.finishedDialog, Ev.resetColors] ∧
    (runLoop fuel (runExperiment (mkInitial q dev))).running = false ∧
    (runLoop fuel (runExperiment (mkInitial q dev))).timers = [] := by
  obtain ⟨st, rest, rfl⟩ : ∃ st rest, q = st :: rest := by
    cases q with
    | nil => exact absurd rfl hq
    | cons st rest => exact ⟨st, rest, rfl⟩
  have hrun : runExperiment (mkInitial (st :: rest) dev)
      = processStep
          { mkInitial (st :: rest) dev with running := true, startTime := some 0 } 0 := by
    simp [runExperiment, mkInitial]
  rw [hrun]
  have hfuel2 : 2 * rest.length + 2 ≤ fuel := by
    simp only [List.length_cons] at hfuel
    omega
  obtain ⟨csent, cev, crun, ctim, _⟩ :=
    runLoop_core rest 0
      (processStep
        { mkInitial (st :: rest) dev with running := true, startTime := some 0 } 0)
      0 1 (st.dur * 1000) fuel
      (by simp [processStep, mkInitial, sendToArduino_queue])
      (by simp [processStep, mkInitial, sendToArduino_timers, sendToArduino_nextId,
            sendToArduino_now])
      hfuel2
  refine ⟨?_, ?_, crun, ctim⟩
  · rw [csent]
    simp only [processStep, mkInitial, sendToArduino_sent, sendToArduino_writeCount,
      sendToArduino_device, List.map_cons]
    by_cases hopen : dev.devOpen
    · cases houtcome : dev.outcome 0 <;>
        simp [transmitted, hopen, houtcome, List.append_assoc]
    · simp [transmitted, hopen, List.append_assoc]
  · rw [cev]
    simp [processStep, mkInitial, sendToArduino_events, traceFrom, List.append_assoc]

/-- Position of the yellow in-progress marker of step `k` in the
playback trace: exactly `2*(k-i)`. -/
theorem traceFrom_yellow (q : List Step) :
    ∀ (i j k : Nat),
      (traceFrom i q)[j]? = some (Ev.highlight k "yellow")
        ↔ (i ≤ k ∧ k < i + q.length ∧ j = 2 * (k - i)) := by
  induction q with
  | nil =>
      intro i j k
      simp only [traceFrom, List.getElem?_nil, List.length_nil]
      simp
      omega
  | cons st rest ih =>
      intro i j k
      match j with
      | 0 =>
          simp only [traceFrom, List.getElem?_cons_zero, Option.some_inj,
            Ev.highlight.injEq, List.length_cons]
          simp
          omega
      | 1 =>
          simp only [traceFrom, List.getElem?_cons_succ, List.getElem?_cons_zero,
            Option.some_inj, Ev.highlight.injEq, List.length_cons]
          simp
          omega
      | j + 2 =>
          simp only [traceFrom, List.getElem?_cons_succ, List.length_cons]
          rw [ih (i + 1) j k]
          omega

/-- Position of the green completed marker of step `k` in the playback
trace: exactly `2*(k-i)+1`. -/
theorem traceFrom_green (q : List Step) :
    ∀ (i j k : Nat),
      (traceFrom i q)[j]? = some (Ev.highlight k "green")
        ↔ (i ≤ k ∧ k < i + q.length ∧ j = 2 * (k - i) + 1) := by
  induction q with
  | nil =>
      intro i j k
      simp only [traceFrom, List.getElem?_nil, List.length_nil]
      simp
      omega
  | cons st rest ih =>
      intro i j k
      match j with
      | 0 =>
          simp only [traceFrom, List.getElem?_cons_zero, Option.some_inj,
            Ev.highlight.injEq, List.length_cons]
          simp
      | 1 =>
          simp only [traceFrom, List.getElem?_cons_succ, List.getElem?_cons_zero,
            Option.some_inj, Ev.highlight.injEq, List.length_cons]
          simp
          omega
      | j + 2 =>
          simp only [traceFrom, List.getElem?_cons_succ, List.length_cons]
          rw [ih (i + 1) j k]
          omega

/-- Marker events of the full run trace live in its `traceFrom` part:
the trailing completion dialog and color reset are not markers. -/
theorem fullTrace_highlight (q : List Step) (j k : Nat) (c : String) :
    (traceFrom 0 q ++ [Ev.finishedDialog, Ev.resetColors])[j]? = some (Ev.highlight k c)
      ↔ (traceFrom 0 q)[j]? = some (Ev.highlight k c) := by
  rcases Nat.lt_or_ge j (traceFrom 0 q).length with h | h
  · rw [List.getElem?_append_left h]
  · rw [List.getElem?_append_right h]
    constructor
    · intro hmem
      exfalso
      match hd : j - (traceFrom 0 q).length with
      | 0 => rw [hd] at hmem; simp at hmem
      | 1 => rw [hd] at hmem; simp at hmem
      | d + 2 => rw [hd] at hmem; simp at hmem
    · intro hmem
      rw [List.getElem?_eq_none h] at hmem
      exact absurd hmem (by simp)

theorem digitChar_isDigit (k : Nat) (h : k < 10) : (Nat.digitChar k).isDigit = true := by
  interval_cases k <;> decide

theorem digitChar_ne_zero (k : Nat) (h : k < 10) (h0 : k ≠ 0) :
    Nat.digitChar k ≠ '0' := by
  interval_cases k <;> simp_all <;> decide

theorem digitChar_val (k : Nat) (h : k < 10) : (Nat.digitChar k).toNat - 48 = k := by
  interval_cases k <;> decide

/-- The fuel-driven core printer of `Nat.repr` agrees with the
reference digit list. -/
theorem toDigitsCore_eq_spec (fuel : Nat) :
    ∀ (n : Nat) (ds : List Char), n < fuel →
      Nat.toDigitsCore 10 fuel n ds = natDigitsSpec n ++ ds := by
  induction fuel with
  | zero => intro n ds h; omega
  | succ f ih =>
      intro n ds h
      rw [Nat.toDigitsCore]
      by_cases h10 : n / 10 = 0
      · have hn : n < 10 := by omega
        rw [natDigitsSpec]
        simp only [h10, hn, if_true, ite_true, Nat.mod_eq_of_lt hn]
        rfl
      · have hn : ¬ n < 10 := by
          intro hlt
          exact h10 (Nat.div_eq_of_lt hlt)
        have hrec : n / 10 < f := by
          have := Nat.div_lt_self (n := n) (by omega) (by omega : 1 < 10)
          omega
        simp only [h10, if_false]
        rw [ih (n / 10) _ hrec]
        conv_rhs => rw [natDigitsSpec]
        simp [hn, List.append_assoc]

theorem toDigits_eq_spec (n : Nat) : Nat.toDigits 10 n = natDigitsSpec n :=
  by simpa using toDigitsCore_eq_spec (n + 1) n [] (by omega)

theorem natDigitsSpec_ne_nil (n : Nat) : natDigitsSpec n ≠ [] := by
  rw [natDigitsSpec]
  by_cases h : n < 10 <;> simp [h]

theorem natDigitsSpec_all_digits (n : Nat) :
    ∀ c ∈ natDigitsSpec n, c.isDigit = true := by
  induction n using Nat.strong_induction_on with
  | _ n ih =>
      rw [natDigitsSpec]
      by_cases h : n < 10
      · simp [h, digitChar_isDigit n h]
      · simp only [h, if_false]
        intro c hc
        rcases List.mem_append.mp hc with hx | hx
        · exact ih (n / 10) (Nat.div_lt_self (by omega) (by omega)) c hx
        · simp only [List.mem_singleton] at hx
          subst hx
          exact digitChar_isDigit _ (Nat.mod_lt n (by omega))

theorem natDigitsSpec_head (n : Nat) (h0 : n ≠ 0) :
    (natDigitsSpec n).head? ≠ some '0' := by
  induction n using Nat.strong_induction_on with
  | _ n ih =>
      rw [natDigitsSpec]
      by_cases h : n < 10
      · simp [h]
        exact digitChar_ne_zero n h h0
      · simp only [h, if_false]
        rw [List.head?_append_of_ne_nil (natDigitsSpec (n / 10)) (natDigitsSpec_ne_nil (n / 10))]
        exact ih (n / 10) (Nat.div_lt_self (by omega) (by omega)) (by omega)

theorem natDigitsSpec_val (n : Nat) : digitsVal (natDigitsSpec n) = n := by
  induction n using Nat.strong_induction_on with
  | _ n ih =>
      rw [natDigitsSpec]
      by_cases h : n < 10
      · simp [h, digitsVal, digitChar_val n h]
      · simp only [h, if_false]
        have hm : n % 10 < 10 := Nat.mod_lt n (by omega)
        simp only [digitsVal, List.foldl_append, List.foldl_cons, List.foldl_nil]
        have := ih (n / 10) (Nat.div_lt_self (by omega) (by omega))
        simp only [digitsVal] at this
        rw [this, digitChar_val _ hm]
        omega

/-- The numeric rendering used by the f-string frames is a leading-zero
free base-10 numeral. -/
theorem toString_base10 (n : Nat) : base10NoLeadingZeros n (toString n) := by
  refine ⟨natDigitsSpec n, ?_, natDigitsSpec_ne_nil n, natDigitsSpec_all_digits n, ?_, natDigitsSpec_val n⟩
  · show Nat.repr n = _
    rw [Nat.repr, toDigits_eq_spec]
  · intro hh
    by_cases h0 : n = 0
    · subst h0
      rw [natDigitsSpec]
      simp
      decide
    · exact absurd hh (natDigitsSpec_head n h0)

theorem isDigit_ne_dot (c : Char) (h : c.isDigit = true) : c ≠ '.' := by
  intro hc
  subst hc
  exact absurd h (by decide)

theorem mem_of_mem_removeFirstDotList (l : List Char) (x : Char)
    (h : x ∈ removeFirstDotList l) : x ∈ l := by
  induction l with
  | nil => simp [removeFirstDotList] at h
  | cons c cs ih =>
      by_cases hc : c = '.'
      · subst hc
        simp only [removeFirstDotList, if_pos rfl] at h
        exact List.mem_cons_of_mem _ h
      · simp only [removeFirstDotList, if_neg hc, List.mem_cons] at h
        rcases h with h | h
        · exact h ▸ List.mem_cons_self _ _
        · exact List.mem_cons_of_mem _ (ih h)

theorem mem_removeFirstDotList_of_ne_dot (l : List Char) (x : Char)
    (hx : x ∈ l) (hne : x ≠ '.') : x ∈ removeFirstDotList l := by
  induction l with
  | nil => simp at hx
  | cons c cs ih =>
      by_cases hc : c = '.'
      · subst hc
        simp only [removeFirstDotList, if_pos rfl]
        rcases List.mem_cons.mp hx with h | h
        · exact absurd h hne
        · exact h
      · simp only [removeFirstDotList, if_neg hc, List.mem_cons]
        rcases List.mem_cons.mp hx with h | h
        · exact Or.inl h
        · exact Or.inr (ih h)

/-- The line with its first dot removed is all digits exactly when the
line holds at most one dot and nothing but digits and dots. -/
theorem removeFirstDotList_all_digit (l : List Char) :
    (removeFirstDotList l).all Char.isDigit = true
      ↔ (l.count '.' ≤ 1 ∧ ∀ c ∈ l, c.isDigit = true ∨ c = '.') := by
  induction l with
  | nil => simp [removeFirstDotList]
  | cons c cs ih =>
      by_cases hc : c = '.'
      · subst hc
        simp only [removeFirstDotList, if_pos rfl, List.count_cons_self]
        constructor
        · intro h
          rw [List.all_eq_true] at h
          have hnotin : '.' ∉ cs := fun hin =>
            isDigit_ne_dot '.' (h '.' hin) rfl
          refine ⟨by rw [List.count_eq_zero.mpr hnotin], ?_⟩
          intro x hx
          rcases List.mem_cons.mp hx with h1 | h1
          · exact Or.inr h1
          · exact Or.inl (h x h1)
        · rintro ⟨hcount, hall⟩
          have hzero : cs.count '.' = 0 := by omega
          have hnotin : '.' ∉ cs := List.count_eq_zero.mp hzero
          rw [List.all_eq_true]
          intro x hx
          rcases hall x (List.mem_cons_of_mem _ hx) with h1 | h1
          · exact h1
          · exact absurd (h1 ▸ hx) hnotin
      · simp only [removeFirstDotList, if_neg hc, List.all_cons, Bool.and_eq_true]
        rw [ih]
        constructor
        · rintro ⟨hcd, hcount, hall⟩
          refine ⟨by simpa [List.count_cons, hc] using hcount, ?_⟩
          intro x hx
          rcases List.mem_cons.mp hx with h1 | h1
          · exact Or.inl (h1 ▸ hcd)
          · exact hall x h1
        · rintro ⟨hcount, hall⟩
          have hcd : c.isDigit = true := by
            rcases hall c (List.mem_cons_self _ _) with h1 | h1
            · exact h1
            · exact absurd h1 hc
          refine ⟨hcd, by simpa [List.count_cons, hc] using hcount, ?_⟩
          intro x hx
          exact hall x (List.mem_cons_of_mem _ hx)

/-- The acceptance test of `update_graph` accepts exactly the lines
made of digits and at most one dot that hold at least one digit. -/
theorem acceptsLine_iff (s : String) :
    acceptsLine s = true
      ↔ (s.data.count '.' ≤ 1 ∧ (∀ c ∈ s.data, c.isDigit = true ∨ c = '.')
          ∧ ∃ c ∈ s.data, c.isDigit = true) := by
  have hdata : (removeFirstDot s).data = removeFirstDotList s.data := rfl
  unfold acceptsLine pyIsDigit
  rw [hdata, Bool.and_eq_true]
  constructor
  · rintro ⟨hne, hall⟩
    have hiff := (removeFirstDotList_all_digit s.data).mp hall
    refine ⟨hiff.1, hiff.2, ?_⟩
    have hnil : removeFirstDotList s.data ≠ [] := by simpa using hne
    obtain ⟨x, hx⟩ := List.exists_mem_of_ne_nil _ hnil
    rw [List.all_eq_true] at hall
    exact ⟨x, mem_of_mem_removeFirstDotList _ _ hx, hall x hx⟩
  · rintro ⟨hcount, hall, x, hxmem, hxdig⟩
    have hall2 : (removeFirstDotList s.data).all Char.isDigit = true :=
      (removeFirstDotList_all_digit s.data).mpr ⟨hcount, hall⟩
    refine ⟨?_, hall2⟩
    have hx : x ∈ removeFirstDotList s.data :=
      mem_removeFirstDotList_of_ne_dot _ _ hxmem (isDigit_ne_dot x hxdig)
    simpa using List.ne_nil_of_mem hx

/-- The telemetry loop appends one sample per accepted line, indexed by
the count of previously accepted samples, valued at the parsed number;
rejected lines contribute nothing. -/
theorem ingest_eq (lines : List String) :
    ∀ (counter : Nat) (samples : List Sample),
      ingest counter samples lines
        = samples ++ (lines.filter (fun l => acceptsLine l)).mapIdx
            (fun i l => ⟨counter + i, parseDec l⟩) := by
  induction lines with
  | nil => intro c ss; simp [ingest]
  | cons line rest ih =>
      intro c ss
      by_cases h : acceptsLine line
      · have hfun : (fun (i : Nat) (l : String) => (⟨c + 1 + i, parseDec l⟩ : Sample))
            = fun (i : Nat) (l : String) => ⟨c + (i + 1), parseDec l⟩ := by
          funext i l
          rw [Nat.add_assoc, Nat.add_comm 1 i]
        simp only [ingest, h, if_true, List.filter_cons_of_pos h, List.mapIdx_cons]
        rw [ih, hfun]
        simp [List.append_assoc]
      · simp only [ingest, h, if_false, Bool.false_eq_true,
          List.filter_cons_of_neg (by simpa using h)]
        exact ih c ss

theorem decodeRecord_stepRecord (st : Step) :
    decodeRecord (stepRecord st) = some st := by
  cases st <;> rfl

theorem decodeAll_stepRecord (q : List Step) :
    decodeAll (q.map stepRecord) = some q := by
  induction q with
  | nil => rfl
  | cons st rest ih =>
      simp [decodeAll, decodeRecord_stepRecord, ih]

example : encodeStep (Step.continuous 2 50) = "ON 2 50\n" := by decide

example : encodeStep (Step.advPulsing 3 10 20 99) = "ADV_PULSING 3 10 20 99\n" := by decide

example :
    (runExperiment (mkInitial [Step.continuous 2 50] okDevice)).sent = ["ON 2 50\n"] := by
  decide

example :
    (runLoop 4 (runExperiment (mkInitial [Step.continuous 2 50, Step.noLight 1] okDevice))).sent
      = ["ON 2 50\n", "OFF 1\n", "OFF\n"] := by
  decide

/-- C1: for every non-empty queue, running the experiment to completion
transmits exactly `len(queue)` step commands, one per step in queue
order, followed by exactly one `OFF\n` sentinel frame, then signals run
completion and returns the phase to Idle. -/
theorem claim_C1 (q : List Step) (hq : q ≠ []) (fuel : Nat)
    (hfuel : 2 * q.length ≤ fuel) :
    (runLoop fuel (runExperiment (mkInitial q okDevice))).sent
        = q.map encodeStep ++ ["OFF\n"] ∧
    Ev.finishedDialog ∈ (runLoop fuel (runExperiment (mkInitial q okDevice))).events ∧
    (runLoop fuel (runExperiment (mkInitial q okDevice))).running = false := by
  obtain ⟨hsent, hev, hrun, _⟩ := run_to_completion q okDevice hq fuel hfuel
  refine ⟨?_, ?_, hrun⟩
  · rw [hsent, transmitted_okDevice]
  · rw [hev]
    simp

theorem claim_C1_wit :
    ([Step.continuous 2 50, Step.noLight 1] ≠ ([] : List Step)) ∧
    2 * ([Step.continuous 2 50, Step.noLight 1] : List Step).length ≤ 4 ∧
    ((runLoop 4 (runExperiment
          (mkInitial [Step.continuous 2 50, Step.noLight 1] okDevice))).sent
        = [Step.continuous 2 50, Step.noLight 1].map encodeStep ++ ["OFF\n"] ∧
      Ev.finishedDialog ∈ (runLoop 4 (runExperiment
          (mkInitial [Step.continuous 2 50, Step.noLight 1] okDevice))).events ∧
      (runLoop 4 (runExperiment
          (mkInitial [Step.continuous 2 50, Step.noLight 1] okDevice))).running = false) :=
  ⟨by decide, by decide,
    claim_C1 [Step.continuous 2 50, Step.noLight 1] (by decide) 4 (by decide)⟩

/-- C2: the command encoder emits exactly the frame of each variant,
every numeric field rendered as a base-10 integer with no leading
zeros, and the queue [Continuous(2s,50), Dark(1s)] produces the
transmissions `ON 2 50\n`, `OFF 1\n`, `OFF\n` in that order. -/
theorem claim_C2 :
    (∀ d l : Nat, encodeStep (Step.continuous d l)
        = "ON " ++ toString d ++ " " ++ toString l ++ "\n") ∧
    (∀ d : Nat, encodeStep (Step.noLight d) = "OFF " ++ toString d ++ "\n") ∧
    (∀ d f l : Nat, encodeStep (Step.pulsing d f l)
        = "PULSING " ++ toString d ++ " " ++ toString f ++ " " ++ toString l ++ "\n") ∧
    (∀ d a b l : Nat, encodeStep (Step.advPulsing d a b l)
        = "ADV_PULSING " ++ toString d ++ " " ++ toString a ++ " " ++ toString b
            ++ " " ++ toString l ++ "\n") ∧
    (∀ n : Nat, base10NoLeadingZeros n (toString n)) ∧
    (runLoop 4 (runExperiment
        (mkInitial [Step.continuous 2 50, Step.noLight 1] okDevice))).sent
      = ["ON 2 50\n", "OFF 1\n", "OFF\n"] := by
  refine ⟨?_, ?_, ?_, ?_, toString_base10, by decide⟩ <;>
    · intros
      rfl

/-- C5: in every completed run, the completed marker of step i is never
observed before the in-progress marker of step i, the in-progress
marker of step i+1 never precedes the completed marker of step i, and
the completed-marker timer and advance timer of a step are armed for
the same fire time. -/
theorem claim_C5 (q : List Step) (hq : q ≠ []) (fuel : Nat)
    (hfuel : 2 * q.length ≤ fuel) (i j1 j2 : Nat) :
    ((runLoop fuel (runExperiment (mkInitial q okDevice))).events[j1]?
          = some (Ev.highlight i "green") →
      (runLoop fuel (runExperiment (mkInitial q okDevice))).events[j2]?
          = some (Ev.highlight i "yellow") →
      j2 < j1) ∧
    ((runLoop fuel (runExperiment (mkInitial q okDevice))).events[j1]?
          = some (Ev.highlight (i + 1) "yellow") →
      (runLoop fuel (runExperiment (mkInitial q okDevice))).events[j2]?
          = some (Ev.highlight i "green") →
      j2 < j1) ∧
    (∀ (s : Sched) (st : Step), s.queue[i]? = some st →
      ∃ t0, (processStep s i).timers
          = s.timers ++ [⟨s.nextId, t0, Cb.highlightCb i "green"⟩,
                         ⟨s.nextId + 1, t0, Cb.stepCb (i + 1)⟩]) := by
  obtain ⟨_, hev, _, _⟩ := run_to_completion q okDevice hq fuel hfuel
  rw [hev]
  refine ⟨?_, ?_, ?_⟩
  · intro h1 h2
    rw [fullTrace_highlight, traceFrom_green] at h1
    rw [fullTrace_highlight, traceFrom_yellow] at h2
    omega
  · intro h1 h2
    rw [fullTrace_highlight, traceFrom_yellow] at h1
    rw [fullTrace_highlight, traceFrom_green] at h2
    omega
  · intro s st hst
    refine ⟨s.now + st.dur * 1000, ?_⟩
    simp [processStep, hst, sendToArduino_timers, sendToArduino_nextId,
      sendToArduino_now]

theorem claim_C5_wit :
    ([Step.continuous 2 50, Step.noLight 1] ≠ ([] : List Step)) ∧
    2 * ([Step.continuous 2 50, Step.noLight 1] : List Step).length ≤ 4 ∧
    (((runLoop 4 (runExperiment
          (mkInitial [Step.continuous 2 50, Step.noLight 1] okDevice))).events[1]?
            = some (Ev.highlight 0 "green") →
        (runLoop 4 (runExperiment
          (mkInitial [Step.continuous 2 50, Step.noLight 1] okDevice))).events[0]?
            = some (Ev.highlight 0 "yellow") →
        (0 : Nat) < 1) ∧
      ((runLoop 4 (runExperiment
          (mkInitial [Step.continuous 2 50, Step.noLight 1] okDevice))).events[1]?
            = some (Ev.highlight (0 + 1) "yellow") →
        (runLoop 4 (runExperiment
          (mkInitial [Step.continuous 2 50, Step.noLight 1] okDevice))).events[0]?
            = some (Ev.highlight 0 "green") →
        (0 : Nat) < 1) ∧
      (∀ (s : Sched) (st : Step), s.queue[0]? = some st →
        ∃ t0, (processStep s 0).timers
            = s.timers ++ [⟨s.nextId, t0, Cb.highlightCb 0 "green"⟩,
                           ⟨s.nextId + 1, t0, Cb.stepCb (0 + 1)⟩])) :=
  ⟨by decide, by decide,
    claim_C5 [Step.continuous 2 50, Step.noLight 1] (by decide) 4 (by decide) 0 1 0⟩

/-- C3: stopping a running engine cancels every armed timer recorded in
`scheduled_tasks`, transmits exactly one additional `OFF\n`, clears the
running flag, and no further step-advance or marker callback can fire;
stop is a no-op when the engine is already idle. -/
theorem claim_C3 (s : Sched)
    (hinv : ∀ t ∈ s.timers, t.id ∈ s.scheduledTasks)
    (hdev : s.device = okDevice) :
    (s.running = true →
      (stopExperiment s true).timers = [] ∧
      (stopExperiment s true).sent = s.sent ++ ["OFF\n"] ∧
      (stopExperiment s true).running = false ∧
      ∀ fuel, runLoop fuel (stopExperiment s true) = stopExperiment s true) ∧
    (s.running = false → stopExperiment s true = s) := by
  constructor
  · intro hrun
    have htim : s.timers.filter (fun t => !(s.scheduledTasks.contains t.id)) = [] := by
      rw [List.filter_eq_nil_iff]
      intro t ht
      have hmem := hinv t ht
      simp [List.elem_iff, hmem]
    refine ⟨?_, ?_, ?_, ?_⟩
    · simp [stopExperiment, hrun, sendToArduino_timers, htim]
      exact hinv
    · simp [stopExperiment, hrun, sendToArduino_sent, hdev, transmitted_okDevice]
    · simp [stopExperiment, hrun]
    · intro fuel
      apply runLoop_no_timers
      simp [stopExperiment, hrun, sendToArduino_timers, htim]
      exact hinv
  · intro hrun
    simp [stopExperiment, hrun]

theorem claim_C3_wit :
    (∀ t_ ∈ (runExperiment
        (mkInitial [Step.continuous 2 50, Step.noLight 1] okDevice)).timers,
      t_.id ∈ (runExperiment
        (mkInitial [Step.continuous 2 50, Step.noLight 1] okDevice)).scheduledTasks) ∧
    (runExperiment
        (mkInitial [Step.continuous 2 50, Step.noLight 1] okDevice)).device = okDevice ∧
    (((runExperiment (mkInitial [Step.continuous 2 50, Step.noLight 1] okDevice)).running
          = true →
        (stopExperiment (runExperiment
            (mkInitial [Step.continuous 2 50, Step.noLight 1] okDevice)) true).timers = [] ∧
        (stopExperiment (runExperiment
            (mkInitial [Step.continuous 2 50, Step.noLight 1] okDevice)) true).sent
          = (runExperiment
              (mkInitial [Step.continuous 2 50, Step.noLight 1] okDevice)).sent
              ++ ["OFF\n"] ∧
        (stopExperiment (runExperiment
            (mkInitial [Step.continuous 2 50, Step.noLight 1] okDevice)) true).running
          = false ∧
        ∀ fuel, runLoop fuel (stopExperiment (runExperiment
            (mkInitial [Step.continuous 2 50, Step.noLight 1] okDevice)) true)
          = stopExperiment (runExperiment
              (mkInitial [Step.continuous 2 50, Step.noLight 1] okDevice)) true) ∧
      ((runExperiment (mkInitial [Step.continuous 2 50, Step.noLight 1] okDevice)).running
          = false →
        stopExperiment (runExperiment
            (mkInitial [Step.continuous 2 50, Step.noLight 1] okDevice)) true
          = runExperiment (mkInitial [Step.continuous 2 50, Step.noLight 1] okDevice))) :=
  ⟨by decide, rfl, claim_C3 _ (by decide) rfl⟩

/-- C4 counterexample: on a state with an empty queue but a nonempty
recorded task list, `run_experiment` transmits nothing and stays idle,
but it does change state: `scheduled_tasks = []` runs before the
emptiness check, so the recorded pending-timer list is cleared. -/
theorem claim_C4_cex :
    ({ mkInitial [] okDevice with scheduledTasks := [5] } : Sched).queue = [] ∧
    ({ mkInitial [] okDevice with scheduledTasks := [5] } : Sched).scheduledTasks = [5] ∧
    (runExperiment { mkInitial [] okDevice with scheduledTasks := [5] }).scheduledTasks
      = [] ∧
    (runExperiment { mkInitial [] okDevice with scheduledTasks := [5] }).sent
      = ({ mkInitial [] okDevice with scheduledTasks := [5] } : Sched).sent ∧
    (runExperiment { mkInitial [] okDevice with scheduledTasks := [5] }).running = false := by
  refine ⟨rfl, rfl, rfl, rfl, rfl⟩

/-- C4 (amended): `run()` on an empty queue transmits nothing and
leaves the engine exactly as it was except that the recorded task list
is reset to empty (which happens before the emptiness check). -/
theorem claim_C4 (s : Sched) (h : s.queue = []) :
    runExperiment s = { s with scheduledTasks := ([] : List Nat) } := by
  simp [runExperiment, h]

theorem claim_C4_wit :
    ({ mkInitial [] okDevice with scheduledTasks := [5] } : Sched).queue = [] ∧
    runExperiment { mkInitial [] okDevice with scheduledTasks := [5] }
      = { ({ mkInitial [] okDevice with scheduledTasks := [5] } : Sched) with
          scheduledTasks := ([] : List Nat) } :=
  ⟨rfl, claim_C4 _ rfl⟩

/-- C6 counterexample: the line `"12."` does not match the spec's
pattern `^\d+(\.\d+)?$`, yet the code's test
`replace(".", "", 1).isdigit()` accepts it and it produces a sample,
so "accepted iff the line matches the pattern" fails. -/
theorem claim_C6_cex :
    acceptsLine "12." = true ∧ specAccepts "12." = false ∧
    ingest 0 [] ["12."] = [⟨0, (12 : Rat)⟩] := by
  refine ⟨by decide, by decide, ?_⟩
  have h12 : (12 : Rat) = mkRat 12 1 := by
    rw [Rat.mkRat_one]
    norm_num
  rw [h12]
  decide

/-- C6 (amended): a raw line is accepted exactly when it consists of
digits and at most one dot and holds at least one digit (equivalently,
the line with its first dot removed is a nonempty digit string); every
other line is discarded without error and produces no sample; each
accepted line yields a sample indexed by the count of previously
accepted samples (from 0) and valued at the parsed number; the lines
"12.5", "oops", "13.0" yield exactly samples (0, 12.5) and (1, 13.0). -/
theorem claim_C6 :
    (∀ s : String, acceptsLine s = true
        ↔ (s.data.count '.' ≤ 1 ∧ (∀ c ∈ s.data, c.isDigit = true ∨ c = '.')
            ∧ ∃ c ∈ s.data, c.isDigit = true)) ∧
    (∀ (lines : List String) (counter : Nat) (samples : List Sample),
        ingest counter samples lines
          = samples ++ (lines.filter (fun l => acceptsLine l)).mapIdx
              (fun i l => ⟨counter + i, parseDec l⟩)) ∧
    ingest 0 [] ["12.5", "oops", "13.0"]
        = [⟨0, (25 : Rat) / 2⟩, ⟨1, (13 : Rat)⟩] := by
  refine ⟨acceptsLine_iff, fun lines c ss => ingest_eq lines c ss, ?_⟩
  have h1 : (25 : Rat) / 2 = mkRat 125 10 := by
    rw [Rat.mkRat_eq_divInt, Rat.divInt_eq_div]
    norm_num
  have h2 : (13 : Rat) = mkRat 13 1 := by
    rw [Rat.mkRat_one]
    norm_num
  rw [h1, h2]
  decide

/-- C7: saving a nonempty queue and loading the saved file back onto a
fresh empty queue reproduces the original steps exactly, and loading
always appends the file's records to the existing queue in file
order. -/
theorem claim_C7 (q : List Step) (hq : q ≠ []) :
    ∃ file, saveExperiment q = some file
      ∧ openExperiment [] file = some q
      ∧ ∀ q0 : List Step, openExperiment q0 file = some (q0 ++ q) := by
  refine ⟨Json.jarr (q.map stepRecord), ?_, ?_, ?_⟩
  · simp [saveExperiment, hq]
  · simp [openExperiment, decodeAll_stepRecord]
  · intro q0
    simp [openExperiment, decodeAll_stepRecord]

theorem claim_C7_wit :
    ([Step.pulsing 2 5 80, Step.advPulsing 3 10 20 99] ≠ ([] : List Step)) ∧
    ∃ file,
      saveExperiment [Step.pulsing 2 5 80, Step.advPulsing 3 10 20 99] = some file
        ∧ openExperiment [] file
            = some [Step.pulsing 2 5 80, Step.advPulsing 3 10 20 99]
        ∧ ∀ q0 : List Step, openExperiment q0 file
            = some (q0 ++ [Step.pulsing 2 5 80, Step.advPulsing 3 10 20 99]) :=
  ⟨by decide, claim_C7 _ (by decide)⟩

/-- C8 counterexample: with a device whose writes fail, the first
step's transmission fails (one failed attempt, nothing sent), yet the
run does not abort: no sentinel goes out, the phase stays Running and
the step's two timers remain armed — there is no DeviceFault fallback
to Idle. -/
theorem claim_C8_cex :
    (runExperiment (mkInitial [Step.continuous 2 50] allFailDevice)).writeCount = 1 ∧
    (runExperiment (mkInitial [Step.continuous 2 50] allFailDevice)).sent = [] ∧
    (runExperiment (mkInitial [Step.continuous 2 50] allFailDevice)).running = true ∧
    (runExperiment (mkInitial [Step.continuous 2 50] allFailDevice)).timers ≠ [] := by
  refine ⟨rfl, rfl, rfl, by decide⟩

/-- C8 (amended): a transmission failure is swallowed inside
`send_to_arduino` (error dialog only); the run is not abandoned and no
DeviceFault is raised: even when every write fails the scheduler plays
every remaining step (full marker trace) and reaches Idle only through
the normal end-of-queue transition, with nothing transmitted. -/
theorem claim_C8 (q : List Step) (hq : q ≠ []) (fuel : Nat)
    (hfuel : 2 * q.length ≤ fuel) :
    (runLoop fuel (runExperiment (mkInitial q allFailDevice))).sent = [] ∧
    (runLoop fuel (runExperiment (mkInitial q allFailDevice))).events
        = traceFrom 0 q ++ [Ev.finishedDialog, Ev.resetColors] ∧
    (runLoop fuel (runExperiment (mkInitial q allFailDevice))).running = false := by
  obtain ⟨hsent, hev, hrun, _⟩ := run_to_completion q allFailDevice hq fuel hfuel
  exact ⟨by rw [hsent, transmitted_allFailDevice], hev, hrun⟩

theorem claim_C8_wit :
    ([Step.continuous 2 50, Step.noLight 1] ≠ ([] : List Step)) ∧
    2 * ([Step.continuous 2 50, Step.noLight 1] : List Step).length ≤ 4 ∧
    ((runLoop 4 (runExperiment
        (mkInitial [Step.continuous 2 50, Step.noLight 1] allFailDevice))).sent = [] ∧
      (runLoop 4 (runExperiment
        (mkInitial [Step.continuous 2 50, Step.noLight 1] allFailDevice))).events
          = traceFrom 0 [Step.continuous 2 50, Step.noLight 1]
              ++ [Ev.finishedDialog, Ev.resetColors] ∧
      (runLoop 4 (runExperiment
        (mkInitial [Step.continuous 2 50, Step.noLight 1] allFailDevice))).running
        = false) :=
  ⟨by decide, by decide,
    claim_C8 [Step.continuous 2 50, Step.noLight 1] (by decide) 4 (by decide)⟩

/-- C9 counterexample: while a run is in progress, `reset_experiment`
does not fail with InvalidWhileRunning — it silently empties the queue
(the functions have no run-phase check; only the UI hides them). -/
theorem claim_C9_cex :
    (runExperiment (mkInitial [Step.noLight 1] okDevice)).running = true ∧
    (runExperiment (mkInitial [Step.noLight 1] okDevice)).queue = [Step.noLight 1] ∧
    (resetExperiment (runExperiment (mkInitial [Step.noLight 1] okDevice))).queue = [] ∧
    (resetExperiment (runExperiment (mkInitial [Step.noLight 1] okDevice))).running
      = true := by
  refine ⟨rfl, rfl, rfl, rfl⟩

/-- C9 (amended): the queue-mutating operations themselves do not
check the run phase: clear empties the queue in any state (leaving the
running flag untouched) and delete pops the selected valid index;
delete fails (Python IndexError) exactly when the selection is out of
range on a nonempty queue, the placeholder row of an empty queue is
refused, and while running the click handler never offers the delete
button. -/
theorem claim_C9 :
    (∀ s : Sched, (resetExperiment s).queue = []
        ∧ (resetExperiment s).running = s.running) ∧
    (∀ (q : List Step) (idx : Nat), idx < q.length →
        deleteStep q (some idx) true = DeleteRes.deleted (q.eraseIdx idx)) ∧
    (∀ (q : List Step) (idx : Nat), q ≠ [] → q.length ≤ idx →
        deleteStep q (some idx) true = DeleteRes.indexError) ∧
    deleteStep [] (some 0) true = DeleteRes.cannotDeleteDefault ∧
    (∀ (sel : Option Nat) (e : Bool), onStepClick true sel e = false) := by
  refine ⟨fun s => ⟨rfl, rfl⟩, ?_, ?_, rfl, fun sel e => rfl⟩
  · intro q idx hlt
    have hne : ¬ (idx = 0 ∧ q = []) := by
      rintro ⟨rfl, rfl⟩
      simp at hlt
    simp [deleteStep, hne, hlt]
  · intro q idx hq hge
    have hne : ¬ (idx = 0 ∧ q = []) := by
      rintro ⟨rfl, rfl⟩
      exact hq rfl
    have hnlt : ¬ idx < q.length := by omega
    simp [deleteStep, hne, hnlt]

theorem claim_C9_wit :
    ((resetExperiment (mkInitial [Step.noLight 1] okDevice)).queue = []
        ∧ (resetExperiment (mkInitial [Step.noLight 1] okDevice)).running
            = (mkInitial [Step.noLight 1] okDevice).running) ∧
    deleteStep [Step.noLight 1, Step.continuous 2 50] (some 1) true
      = DeleteRes.deleted [Step.noLight 1] ∧
    deleteStep [Step.noLight 1] (some 7) true = DeleteRes.indexError ∧
    deleteStep [] (some 0) true = DeleteRes.cannotDeleteDefault ∧
    onStepClick true (some 0) false = false := by
  obtain ⟨h1, h2, h3, h4, h5⟩ := claim_C9
  exact ⟨h1 _, h2 [Step.noLight 1, Step.continuous 2 50] 1 (by decide),
    h3 [Step.noLight 1] 7 (by decide) (by decide), h4, h5 (some 0) false⟩

/-- C10 (implicit): `send_to_arduino` returns normally whether the port
is closed or the write raises, touching nothing but the transmission
log and write counter; a run in progress keeps its Running phase and
its timers: `process_step` arms both timers of a step regardless of the
write outcome, and with a device whose every write fails the timers
still fire and play out every remaining step. -/
theorem claim_C10 :
    (∀ (s : Sched) (cmd : String),
        (sendToArduino s cmd).running = s.running ∧
        (sendToArduino s cmd).timers = s.timers ∧
        (sendToArduino s cmd).queue = s.queue ∧
        (sendToArduino s cmd).scheduledTasks = s.scheduledTasks ∧
        (sendToArduino s cmd).events = s.events) ∧
    (∀ (s : Sched) (idx : Nat) (st : Step), s.queue[idx]? = some st →
        (processStep s idx).running = s.running ∧
        (processStep s idx).timers.length = s.timers.length + 2) ∧
    (∀ q : List Step, q ≠ [] → ∀ fuel : Nat, 2 * q.length ≤ fuel →
        (runLoop fuel (runExperiment (mkInitial q allFailDevice))).events
            = traceFrom 0 q ++ [Ev.finishedDialog, Ev.resetColors]) := by
  refine ⟨?_, ?_, ?_⟩
  · intro s cmd
    exact ⟨sendToArduino_running s cmd, sendToArduino_timers s cmd,
      sendToArduino_queue s cmd, sendToArduino_scheduledTasks s cmd,
      sendToArduino_events s cmd⟩
  · intro s idx st hst
    constructor
    · simp [processStep, hst, sendToArduino_running]
    · simp [processStep, hst, sendToArduino_timers]
  · intro q hq fuel hfuel
    exact (run_to_completion q allFailDevice hq fuel hfuel).2.1

theorem claim_C10_wit :
    ((sendToArduino (mkInitial [Step.noLight 1] allFailDevice) "X").running
        = (mkInitial [Step.noLight 1] allFailDevice).running ∧
      (sendToArduino (mkInitial [Step.noLight 1] allFailDevice) "X").timers
        = (mkInitial [Step.noLight 1] allFailDevice).timers ∧
      (sendToArduino (mkInitial [Step.noLight 1] allFailDevice) "X").queue
        = (mkInitial [Step.noLight 1] allFailDevice).queue ∧
      (sendToArduino (mkInitial [Step.noLight 1] allFailDevice) "X").scheduledTasks
        = (mkInitial [Step.noLight 1] allFailDevice).scheduledTasks ∧
      (sendToArduino (mkInitial [Step.noLight 1] allFailDevice) "X").events
        = (mkInitial [Step.noLight 1] allFailDevice).events) ∧
    ((mkInitial [Step.noLight 1] allFailDevice).queue[0]? = some (Step.noLight 1)) ∧
    (runLoop 2 (runExperiment (mkInitial [Step.noLight 1] allFailDevice))).events
        = traceFrom 0 [Step.noLight 1] ++ [Ev.finishedDialog, Ev.resetColors] := by
  obtain ⟨h1, _, h3⟩ := claim_C10
  exact ⟨h1 _ "X", by decide, h3 [Step.noLight 1] (by decide) 2 (by decide)⟩

/-- The remainder returned by `selectMin` is drawn from the original
timer list. -/
theorem selectMin_rest_mem (l : List Timer) :
    ∀ (t : Timer) (rest : List Timer), selectMin l = some (t, rest) →
      ∀ x ∈ rest, x ∈ l := by
  induction l with
  | nil => intro t rest h; simp [selectMin] at h
  | cons a as ih =>
      intro t rest h
      simp only [selectMin] at h
      cases hsel : selectMin as with
      | none =>
          rw [hsel] at h
          obtain ⟨rfl, rfl⟩ := Prod.mk.inj (Option.some_inj.mp h)
          intro x hx
          simp at hx
      | some p =>
          obtain ⟨u, r⟩ := p
          rw [hsel] at h
          dsimp only at h
          by_cases hle : a.time ≤ u.time
          · rw [if_pos hle] at h
            obtain ⟨rfl, rfl⟩ := Prod.mk.inj (Option.some_inj.mp h)
            intro x hx
            exact List.mem_cons_of_mem _ hx
          · rw [if_neg hle] at h
            obtain ⟨rfl, rfl⟩ := Prod.mk.inj (Option.some_inj.mp h)
            intro x hx
            rcases List.mem_cons.mp hx with h1 | h1
            · exact h1 ▸ List.mem_cons_self _ _
            · exact List.mem_cons_of_mem _ (ih u r hsel x h1)

/-- `process_step` preserves the invariant that every armed timer's id
is recorded in `scheduled_tasks`. -/
theorem invariant_processStep (s : Sched) (idx : Nat)
    (h : ∀ t ∈ s.timers, t.id ∈ s.scheduledTasks) :
    ∀ t ∈ (processStep s idx).timers, t.id ∈ (processStep s idx).scheduledTasks := by
  cases hget : s.queue[idx]? with
  | none =>
      simp only [processStep, hget, sendToArduino_timers, sendToArduino_scheduledTasks]
      exact h
  | some st =>
      simp only [processStep, hget, sendToArduino_timers, sendToArduino_scheduledTasks,
        sendToArduino_nextId, sendToArduino_now]
      intro t ht
      rcases List.mem_append.mp ht with h1 | h1
      · exact List.mem_append.mpr (Or.inl (h t h1))
      · refine List.mem_append.mpr (Or.inr ?_)
        rcases List.mem_cons.mp h1 with h2 | h2
        · subst h2
          simp
        · rcases List.mem_cons.mp h2 with h3 | h3
          · subst h3
            simp
          · simp at h3

/-- Starting a run from a state with no armed timers yields a state in
which every armed timer's id is recorded in `scheduled_tasks`. -/
theorem invariant_runExperiment (s : Sched) (h : s.timers = []) :
    ∀ t ∈ (runExperiment s).timers, t.id ∈ (runExperiment s).scheduledTasks := by
  by_cases hq : s.queue.isEmpty
  · simp [runExperiment, hq, h]
  · simp only [runExperiment, hq, if_false, Bool.false_eq_true]
    apply invariant_processStep
    simp [h]

/-- Firing a timer preserves the invariant that every armed timer's id
is recorded in `scheduled_tasks` (so it holds at every point of a
playback, and `stop_experiment`'s bulk cancellation always empties the
armed-timer set). -/
theorem invariant_fireNext (s s' : Sched)
    (h : ∀ t ∈ s.timers, t.id ∈ s.scheduledTasks)
    (hf : fireNext s = some s') :
    ∀ t ∈ s'.timers, t.id ∈ s'.scheduledTasks := by
  simp only [fireNext] at hf
  cases hsel : selectMin s.timers with
  | none => rw [hsel] at hf; exact absurd hf (by simp)
  | some p =>
      obtain ⟨u, rest⟩ := p
      rw [hsel] at hf
      have hrest : ∀ x ∈ rest, x ∈ s.timers := selectMin_rest_mem s.timers u rest hsel
      have hinv2 : ∀ t ∈ ({ s with timers := rest, now := u.time } : Sched).timers,
          t.id ∈ ({ s with timers := rest, now := u.time } : Sched).scheduledTasks := by
        intro t ht
        exact h t (hrest t ht)
      obtain rfl : runCb { s with timers := rest, now := u.time } u.cb = s' :=
        Option.some_inj.mp hf
      cases hcb : u.cb with
      | highlightCb idx color => simpa [runCb] using hinv2
      | stepCb idx => exact invariant_processStep _ idx hinv2
